import Mathlib

/-!
# eris-keys: hex/integer helpers and ed25519 account construction

A shallow embedding of

* `common/utils.go`: `NumberToBytes`, `Coerce2Hex`
* `tendermint/account/priv_account.go`: `PrivAccount`, `PrivAccount.Generate`,
  `PrivAccount.Sign`, `GenPrivAccount`, `GenPrivAccountFromSecret`,
  `GenPrivAccountFromPrivKeyBytes`

Go strings and byte slices are lists of bytes; a byte is a `Nat` below 256.
A Go run-time panic is the result `none`.
-/

namespace ErisKeys

/-- A Go `[]byte` (and a Go `string`, which is a sequence of bytes). -/
abbrev Bytes := List Nat

/-- The bytes of an ASCII literal, used to write Go string constants. -/
def ascii (s : String) : Bytes := s.toList.map Char.toNat

/-! ## Go standard library pieces used by `utils.go` -/

/-- Digit value of a byte when it is one of `'0'..'9'`. -/
def digitVal (c : Nat) : Option Nat :=
  if 48 ≤ c ∧ c ≤ 57 then some (c - 48) else none

/-- The loop of `strconv.ParseUint(s, 10, _)` without the range check: the
    value seen so far is `acc`; any byte that is not a decimal digit is a
    syntax error. -/
def parseDigits : Bytes → Nat → Option Nat
  | [], acc => some acc
  | c :: cs, acc =>
    match digitVal c with
    | some d => parseDigits cs (acc * 10 + d)
    | none => none

/-- The call `strconv.ParseUint(s, 10, 64)` up to the range check, which `ParseInt`
    subsumes: the empty string is a syntax error. -/
def parseUint (s : Bytes) : Option Nat :=
  match s with
  | [] => none
  | _ :: _ => parseDigits s 0

/-- Width of Go's `int` (amd64). -/
def intSize : Nat := 64

/-- The call `strconv.Atoi(s)`, that is `ParseInt(s, 10, 0)`: `some i` when `err == nil`.
    An optional sign, then at least one decimal digit, and the value has to fit
    in `int`. -/
def Atoi (s : Bytes) : Option Int :=
  match s with
  | [] => none
  | c :: cs =>
    let neg : Bool := c == 45
    let rest : Bytes := if c == 43 ∨ c == 45 then cs else s
    match parseUint rest with
    | none => none
    | some un =>
      let cutoff : Nat := 2 ^ (intSize - 1)
      if !neg ∧ un ≥ cutoff then none
      else if neg ∧ un > cutoff then none
      else some (if neg then -(un : Int) else (un : Int))

/-- One entry of `hextable = "0123456789abcdef"`. -/
def hexDigit (n : Nat) : Nat :=
  if n < 10 then 48 + n else 87 + n

/-- The function `hex.EncodeToString`: two lower-case hex digits per byte, high nibble
    first. -/
def hexEncode : Bytes → Bytes
  | [] => []
  | b :: bs => hexDigit (b % 256 / 16) :: hexDigit (b % 16) :: hexEncode bs

/-- The fixed-size integer kinds `binary.Write` accepts as a single value,
    with the number of bytes each is written in. -/
inductive IntKind where
  | int8 | uint8 | int16 | uint16 | int32 | uint32 | int64 | uint64
  deriving DecidableEq, Repr

/-- Byte width of a fixed-size integer kind (`intDataSize`). -/
def IntKind.size : IntKind → Nat
  | .int8 | .uint8 => 1
  | .int16 | .uint16 => 2
  | .int32 | .uint32 => 4
  | .int64 | .uint64 => 8

/-- A fixed-width integer passed as `num interface{}`. -/
structure Num where
  kind : IntKind
  val : Int
  deriving DecidableEq, Repr

/-- The functions `binary.BigEndian.PutUintXX`: the `w` low-order bytes of `u`, most
    significant first. -/
def putBigEndian : Nat → Nat → Bytes
  | 0, _ => []
  | w + 1, u => (u / 256 ^ w) % 256 :: putBigEndian w u

/-- What `binary.Write(buf, binary.BigEndian, num)` leaves in a fresh buffer:
    the two's-complement value of `num` in its own width, big-endian. -/
def binaryWrite (num : Num) : Bytes :=
  putBigEndian num.kind.size (num.val % (256 ^ num.kind.size : Int)).toNat

/-! ## `utils.go` -/

/-- The function `NumberToBytes(num, N)`.  The slice expression `buf.Bytes()[buf.Len()-N:]`
    panics when its low bound exceeds the length, that is when `N < 0`. -/
def NumberToBytes (num : Num) (N : Int) : Option Bytes :=
  let buf := binaryWrite num
  if (buf.length : Int) > N then
    if (buf.length : Int) - N > buf.length then none
    else some (buf.drop ((buf.length : Int) - N).toNat)
  else some buf

/-- The conversion `int32(i)` of an `int` to 32 bits. -/
def toInt32 (i : Int) : Num := ⟨.int32, Int.bmod i (2 ^ 32)⟩

/-- The function `Coerce2Hex(s)`. -/
def Coerce2Hex (s : Bytes) : Option Bytes :=
  match Atoi s with
  | some i =>
    (NumberToBytes (toInt32 i) (Int.tdiv i 256 + 1)).map
      (fun b => ascii "0x" ++ hexEncode b)
  | none =>
    if s.length > 1 ∧ s.take 2 = ascii "0x" then
      if s.length % 2 = 0 then some s
      else some (ascii "0x0" ++ s.drop 2)
    else if s.length > 32 then some (ascii "0x" ++ s)
    else
      let pad := List.replicate (32 - s.length) 0 ++ s
      some (ascii "0x" ++ hexEncode pad)

/-! ## Reading the results of `utils.go` -/

/-- The test `len(s) > 1 && s[:2] == "0x"`. -/
def has0x (s : Bytes) : Prop := s.length > 1 ∧ s.take 2 = ascii "0x"

instance (s : Bytes) : Decidable (has0x s) := by
  unfold has0x
  infer_instance

/-- A byte that is a hexadecimal digit, in either case. -/
def isHexDigit (c : Nat) : Bool :=
  (48 ≤ c && c ≤ 57) || (97 ≤ c && c ≤ 102) || (65 ≤ c && c ≤ 70)

/-- A "properly formatted 32 byte hex value": `0x` and then exactly 64
    hexadecimal digits. -/
def isHex32 (r : Bytes) : Bool :=
  r.take 2 == ascii "0x" && (r.drop 2).length == 64 && (r.drop 2).all isHexDigit

/-- Value of a byte string read as a big-endian number. -/
def bigEndianValue (bs : Bytes) : Nat :=
  bs.foldl (fun acc b => acc * 256 + b) 0

/-- The last `n` elements of a list (all of it when it is shorter). -/
def lastN (n : Nat) (l : Bytes) : Bytes :=
  (l.reverse.take n).reverse

/-! ## `priv_account.go`

The file imports `ed25519`, `wire` and the key types of its own package; their
sources are not part of this development, so they are parameters. -/

/-- A value of the interface type `PubKey`: `nil` or a `PubKeyEd25519`
    (`[32]byte`). -/
inductive PubKey where
  | nil
  | ed25519 (key : Bytes)
  deriving DecidableEq, Repr

/-- A value of the interface type `PrivKey`: `nil` or a `PrivKeyEd25519`
    (`[64]byte`). -/
inductive PrivKey where
  | nil
  | ed25519 (key : Bytes)
  deriving DecidableEq, Repr

/-- The struct `PrivAccount`. -/
structure PrivAccount where
  Address : Bytes
  PubKey : PubKey
  PrivKey : PrivKey
  deriving DecidableEq, Repr

/-- The imported key primitives.  `MakePublicKey` takes a pointer to the
    64-byte buffer, so besides the 32-byte public key it yields the buffer as
    the call leaves it. -/
structure KeyLib where
  /-- The function `ed25519.MakePublicKey(privateKey *[64]byte) *[32]byte`. -/
  MakePublicKey : Bytes → Bytes × Bytes
  /-- The function `wire.BinarySha256(o)` at a byte slice. -/
  BinarySha256 : Bytes → Bytes
  /-- The method `PubKeyEd25519.Address()`. -/
  ed25519Address : Bytes → Bytes
  /-- The method `PrivKeyEd25519.PubKey()`. -/
  ed25519PubKey : Bytes → PubKey
  /-- The method `PrivKeyEd25519.Generate(index)`. -/
  ed25519Generate : Bytes → Int → Bytes

/-- The imported signing primitives, for a type of `Signable` objects and a
    type of signatures. -/
structure SignLib (Signable Signature : Type) where
  /-- The function `SignBytes(chainID, o)`. -/
  SignBytes : Bytes → Signable → Bytes
  /-- The method `PrivKeyEd25519.Sign(msg)`. -/
  ed25519Sign : Bytes → Bytes → Signature

/-- The state of the operating system's random source that `CRandBytes` reads:
    the bytes it is still to hand out. -/
abbrev Entropy := Nat → Nat

/-- The function `CRandBytes(n)`: the next `n` random bytes; the source moves on. -/
def CRandBytes (n : Nat) (w : Entropy) : Bytes × Entropy :=
  ((List.range n).map (fun k => w k % 256), fun k => w (k + n))

/-- The builtin `copy(dst, src)`: the new contents of `dst`, whose first
    `min(len(dst), len(src))` elements come from `src`. -/
def copyInto (dst src : Bytes) : Bytes :=
  src.take dst.length ++ dst.drop src.length

/-- The statement `copy(buf[:32], src)`: the new contents of `buf`. -/
def copyFirst32 (buf src : Bytes) : Bytes :=
  copyInto (buf.take 32) src ++ buf.drop 32

/-- The value `new([64]byte)`. -/
def zero64 : Bytes := List.replicate 64 0

/-- Interface call `pubKey.Address()`; a `nil` receiver panics. -/
def PubKey.Address (lib : KeyLib) : PubKey → Option Bytes
  | .nil => none
  | .ed25519 k => some (lib.ed25519Address k)

/-- Interface call `privKey.PubKey()`; a `nil` receiver panics. -/
def PrivKey.PubKey (lib : KeyLib) : PrivKey → Option PubKey
  | .nil => none
  | .ed25519 k => some (lib.ed25519PubKey k)

/-- Interface call `privKey.Sign(msg)`; a `nil` receiver panics. -/
def PrivKey.Sign {Signable Signature : Type} (sl : SignLib Signable Signature) :
    PrivKey → Bytes → Option Signature
  | .nil, _ => none
  | .ed25519 k, msg => some (sl.ed25519Sign k msg)

/-- The shared tail of the three constructors: from the key buffer to the
    account.
    `pubKeyBytes := ed25519.MakePublicKey(privKeyBytes)`, then both arrays are
    read through their pointers. -/
def accountOfBuffer (lib : KeyLib) (privKeyBytes : Bytes) : PrivAccount :=
  let r := lib.MakePublicKey privKeyBytes
  let pubKey := r.1
  let privKey := r.2
  { Address := lib.ed25519Address pubKey
    PubKey := .ed25519 pubKey
    PrivKey := .ed25519 privKey }

/-- The method `(pA *PrivAccount).Generate(index)`.  The type assertion
    `pA.PrivKey.(PrivKeyEd25519)` panics on any other key. -/
def PrivAccount.Generate (lib : KeyLib) (pA : PrivAccount) (index : Int)
    (w : Entropy) : Option PrivAccount × Entropy :=
  match pA.PrivKey with
  | .ed25519 k =>
    let newPrivKey := lib.ed25519Generate k index
    let newPubKey := lib.ed25519PubKey newPrivKey
    match PubKey.Address lib newPubKey with
    | some newAddress =>
      (some { Address := newAddress, PubKey := newPubKey, PrivKey := .ed25519 newPrivKey }, w)
    | none => (none, w)
  | .nil => (none, w)

/-- The method `(pA *PrivAccount).Sign(chainID, o)`. -/
def PrivAccount.Sign {Signable Signature : Type} (sl : SignLib Signable Signature)
    (pA : PrivAccount) (chainID : Bytes) (o : Signable) : Option Signature :=
  PrivKey.Sign sl pA.PrivKey (sl.SignBytes chainID o)

/-- The key buffer of `GenPrivAccount` at the call of `MakePublicKey`. -/
def randomKeyBuffer (rnd : Bytes) : Bytes :=
  copyFirst32 zero64 rnd

/-- The function `GenPrivAccount()`. -/
def GenPrivAccount (lib : KeyLib) (w : Entropy) : PrivAccount × Entropy :=
  let r := CRandBytes 32 w
  (accountOfBuffer lib (randomKeyBuffer r.1), r.2)

/-- The key buffer of `GenPrivAccountFromSecret` at the call of
    `MakePublicKey`. -/
def secretKeyBuffer (lib : KeyLib) (secret : Bytes) : Bytes :=
  let privKey32 := lib.BinarySha256 secret
  copyFirst32 zero64 privKey32

/-- The function `GenPrivAccountFromSecret(secret)`. -/
def GenPrivAccountFromSecret (lib : KeyLib) (secret : Bytes) (w : Entropy) :
    PrivAccount × Entropy :=
  (accountOfBuffer lib (secretKeyBuffer lib secret), w)

/-- The function `GenPrivAccountFromPrivKeyBytes(privKeyBytes)`. -/
def GenPrivAccountFromPrivKeyBytes (lib : KeyLib) (privKeyBytes : Bytes)
    (w : Entropy) : Option PrivAccount × Entropy :=
  if privKeyBytes.length ≠ 64 then (none, w)
  else (some (accountOfBuffer lib privKeyBytes), w)

/-- What the development assumes of the imported key primitives, all of it
    about 64-byte buffers, the only ones their types admit:
    `PrivKeyEd25519.PubKey()` is `MakePublicKey` run on a copy of the key;
    `MakePublicKey` computes the public key from the first half of the buffer,
    leaves that half as it is and returns a 64-byte buffer; `Generate` returns
    a 64-byte key. -/
structure KeyLib.Lawful (lib : KeyLib) : Prop where
  pubKey_eq : ∀ k : Bytes, k.length = 64 →
    lib.ed25519PubKey k = .ed25519 (lib.MakePublicKey k).1
  reads_seed : ∀ b c : Bytes, b.length = 64 → c.length = 64 → b.take 32 = c.take 32 →
    (lib.MakePublicKey b).1 = (lib.MakePublicKey c).1
  keeps_seed : ∀ b : Bytes, b.length = 64 → (lib.MakePublicKey b).2.take 32 = b.take 32
  keeps_length : ∀ b : Bytes, b.length = 64 → (lib.MakePublicKey b).2.length = 64
  generate_length : ∀ (k : Bytes) (i : Int), (lib.ed25519Generate k i).length = 64

/-- The account invariant: `PubKey` is `PrivKey.PubKey()` and `Address` is
    `PubKey.Address()`. -/
def Consistent (lib : KeyLib) (acc : PrivAccount) : Prop :=
  PrivKey.PubKey lib acc.PrivKey = some acc.PubKey ∧
  PubKey.Address lib acc.PubKey = some acc.Address

/-! ### The imported calls as Go functions

A Go function can read and write the state of the process (package variables,
the heap, the random source).  Here each imported call takes that state and
returns the state it leaves, so that nothing is pure by its type. -/

/-- The imported key primitives that `GenPrivAccountFromSecret` calls, each
    run in a process state `σ`. -/
structure KeyEnv (σ : Type) where
  /-- The function `wire.BinarySha256(o)` at a byte slice. -/
  BinarySha256 : Bytes → σ → Bytes × σ
  /-- The function `ed25519.MakePublicKey(privateKey *[64]byte) *[32]byte`: the
      public key and the buffer as the call leaves it. -/
  MakePublicKey : Bytes → σ → (Bytes × Bytes) × σ
  /-- The method `PubKeyEd25519.Address()`. -/
  ed25519Address : Bytes → σ → Bytes × σ

/-- The function `GenPrivAccountFromSecret(secret)` with its three imported
    calls run in the process state, in the order the body makes them:
    `wire.BinarySha256(secret)`, `ed25519.MakePublicKey(privKeyBytes)`,
    `pubKey.Address()`. -/
def GenPrivAccountFromSecretIn {σ : Type} (env : KeyEnv σ) (secret : Bytes) (s : σ) :
    PrivAccount × σ :=
  let h := env.BinarySha256 secret s
  let privKeyBytes := copyFirst32 zero64 h.1
  let m := env.MakePublicKey privKeyBytes h.2
  let pubKey := m.1.1
  let privKey := m.1.2
  let a := env.ed25519Address pubKey m.2
  ({ Address := a.1, PubKey := .ed25519 pubKey, PrivKey := .ed25519 privKey }, a.2)

/-- What is assumed of the imported calls for determinism: the value each one
    returns is the same in every process state (the state it leaves is free). -/
structure KeyEnv.Deterministic {σ : Type} (env : KeyEnv σ) : Prop where
  digest : ∀ (x : Bytes) (s t : σ), (env.BinarySha256 x s).1 = (env.BinarySha256 x t).1
  pubKey : ∀ (b : Bytes) (s t : σ), (env.MakePublicKey b s).1 = (env.MakePublicKey b t).1
  address : ∀ (p : Bytes) (s t : σ), (env.ed25519Address p s).1 = (env.ed25519Address p t).1

/-- A key library whose calls leave the process state alone. -/
def KeyLib.toEnv (lib : KeyLib) (σ : Type) : KeyEnv σ where
  BinarySha256 := fun x s => (lib.BinarySha256 x, s)
  MakePublicKey := fun b s => (lib.MakePublicKey b, s)
  ed25519Address := fun p s => (lib.ed25519Address p, s)

/-! ### A small instance of the primitives, for evaluating the definitions -/

/-- A toy key library: the public key is the seed half read backwards,
    `MakePublicKey` stores it in the second half of the buffer, the digest is
    the input cut or zero-padded to 32 bytes with every byte incremented. -/
def toyLib : KeyLib where
  MakePublicKey := fun b => ((b.take 32).reverse, b.take 32 ++ (b.take 32).reverse)
  BinarySha256 := fun s => ((s ++ List.replicate 32 0).take 32).map (fun x => (x + 1) % 256)
  ed25519Address := fun p => p.take 20
  ed25519PubKey := fun k => .ed25519 (k.take 32).reverse
  ed25519Generate := fun k i =>
    ((k ++ List.replicate 32 0).take 32).map (fun x => (x + i.toNat) % 256)
      ++ List.replicate 32 0

/-- A toy signing library: the signature is the pair of key and message. -/
def toySign : SignLib Bytes (Bytes × Bytes) where
  SignBytes := fun chainID o => chainID.length :: chainID ++ o
  ed25519Sign := fun k msg => (k, msg)

/-- A random source that counts upwards. -/
def countingEntropy : Entropy := fun k => k

/-- A random source that hands out sevens. -/
def constEntropy : Entropy := fun _ => 7

/-- A toy environment whose state counts the imported calls made so far: the
    values are those of `toyLib`, every call adds one to the count. -/
def countingEnv : KeyEnv Nat where
  BinarySha256 := fun x n => (toyLib.BinarySha256 x, n + 1)
  MakePublicKey := fun b n => (toyLib.MakePublicKey b, n + 1)
  ed25519Address := fun p n => (toyLib.ed25519Address p, n + 1)

/-- A toy environment whose digest reads the process state: the state is mixed
    into the first byte. -/
def leakyEnv : KeyEnv Nat where
  BinarySha256 := fun x n => ((n % 256) :: (toyLib.BinarySha256 x).drop 1, n)
  MakePublicKey := fun b n => (toyLib.MakePublicKey b, n)
  ed25519Address := fun p n => (toyLib.ed25519Address p, n)

/-! ## Lemmas on the byte helpers -/

theorem lastN_eq_drop (n : Nat) (l : Bytes) : lastN n l = l.drop (l.length - n) := by
  unfold lastN
  rw [List.reverse_take, List.reverse_reverse, List.length_reverse]

theorem lastN_of_length_le (n : Nat) (l : Bytes) (h : l.length ≤ n) : lastN n l = l := by
  rw [lastN_eq_drop, Nat.sub_eq_zero_of_le h, List.drop_zero]

theorem lastN_length (n : Nat) (l : Bytes) : (lastN n l).length = min n l.length := by
  rw [lastN_eq_drop, List.length_drop]
  omega

theorem putBigEndian_length (w u : Nat) : (putBigEndian w u).length = w := by
  induction w with
  | zero => rfl
  | succ w ih => simp [putBigEndian, ih]

theorem putBigEndian_lt (w u : Nat) : ∀ b ∈ putBigEndian w u, b < 256 := by
  induction w with
  | zero => simp [putBigEndian]
  | succ w ih =>
    intro b hb
    simp only [putBigEndian, List.mem_cons] at hb
    rcases hb with rfl | hb
    · exact Nat.mod_lt _ (by norm_num)
    · exact ih b hb

theorem foldl_bigEndian (bs : Bytes) (a : Nat) :
    bs.foldl (fun acc b => acc * 256 + b) a = a * 256 ^ bs.length + bigEndianValue bs := by
  induction bs generalizing a with
  | nil => simp [bigEndianValue]
  | cons b bs ih =>
    simp only [bigEndianValue, List.foldl_cons, List.length_cons]
    rw [ih (a * 256 + b), ih (0 * 256 + b)]
    ring

theorem bigEndianValue_cons (b : Nat) (bs : Bytes) :
    bigEndianValue (b :: bs) = b * 256 ^ bs.length + bigEndianValue bs := by
  have h := foldl_bigEndian bs (0 * 256 + b)
  simp only [bigEndianValue, List.foldl_cons] at h ⊢
  rw [h]
  ring

theorem bigEndianValue_putBigEndian (w u : Nat) :
    bigEndianValue (putBigEndian w u) = u % 256 ^ w := by
  induction w with
  | zero => simp [putBigEndian, bigEndianValue, Nat.mod_one]
  | succ w ih =>
    rw [putBigEndian, bigEndianValue_cons, ih, putBigEndian_length]
    rw [pow_succ, Nat.mod_mul, Nat.mul_comm]
    omega

theorem binaryWrite_length (num : Num) : (binaryWrite num).length = num.kind.size := by
  simp [binaryWrite, putBigEndian_length]

theorem NumberToBytes_eq_lastN (num : Num) (N : Int) (hN : 0 ≤ N) :
    NumberToBytes num N = some (lastN N.toNat (binaryWrite num)) := by
  unfold NumberToBytes
  simp only []
  split
  · rename_i h
    rw [if_neg (by omega), lastN_eq_drop]
    congr 2
    omega
  · rename_i h
    rw [lastN_of_length_le]
    omega

theorem NumberToBytes_neg (num : Num) (N : Int) (hN : N < 0) :
    NumberToBytes num N = none := by
  unfold NumberToBytes
  simp only []
  rw [if_pos (by omega), if_pos (by omega)]

theorem hexDigit_isHexDigit (n : Nat) (h : n < 16) : isHexDigit (hexDigit n) = true := by
  revert n
  decide

theorem hexEncode_length (bs : Bytes) : (hexEncode bs).length = 2 * bs.length := by
  induction bs with
  | nil => rfl
  | cons b bs ih => simp [hexEncode, ih]; omega

theorem hexEncode_all (bs : Bytes) : (hexEncode bs).all isHexDigit = true := by
  induction bs with
  | nil => rfl
  | cons b bs ih =>
    simp only [hexEncode, List.all_cons, ih, Bool.and_true, Bool.and_eq_true]
    exact ⟨hexDigit_isHexDigit _ (by omega), hexDigit_isHexDigit _ (by omega)⟩

theorem isHex32_0x_hexEncode (bs : Bytes) (h : bs.length = 32) :
    isHex32 (ascii "0x" ++ hexEncode bs) = true := by
  have e : ascii "0x" ++ hexEncode bs = 48 :: 120 :: hexEncode bs := rfl
  rw [e]
  simp [isHex32, hexEncode_length, hexEncode_all, h]
  rfl

theorem tdiv_256_of_nonneg (i : Int) (h : 0 ≤ i) : Int.tdiv i 256 = i / 256 :=
  Int.tdiv_eq_ediv h (by norm_num)

theorem tdiv_256_of_neg (i : Int) (h : i < 0) : Int.tdiv i 256 = -((-i) / 256) := by
  have e : i = -(-i) := by omega
  rw [e, Int.neg_tdiv, Int.tdiv_eq_ediv (by omega) (by norm_num)]
  simp

/-- The byte count `i/256 + 1` that `Coerce2Hex` asks for is negative exactly
    from `-512` downwards. -/
theorem count_neg_iff (i : Int) : Int.tdiv i 256 + 1 < 0 ↔ i ≤ -512 := by
  rcases lt_or_le i 0 with h | h
  · rw [tdiv_256_of_neg i h]
    omega
  · rw [tdiv_256_of_nonneg i h]
    omega

theorem has0x_iff (s : Bytes) : has0x s ↔ ∃ t, s = 48 :: 120 :: t := by
  constructor
  · rintro ⟨_, h⟩
    match s, h with
    | a :: b :: t, h =>
      have h2 : [a, b] = [48, 120] := h
      injection h2 with ha hb
      injection hb with hb _
      exact ⟨t, by rw [ha, hb]⟩
  · rintro ⟨t, rfl⟩
    exact ⟨by simp, rfl⟩

/-- A string that starts with `0x` is not a decimal integer. -/
theorem Atoi_of_has0x (s : Bytes) (h : has0x s) : Atoi s = none := by
  obtain ⟨t, rfl⟩ := (has0x_iff s).1 h
  simp [Atoi, parseUint, parseDigits, digitVal]

theorem Coerce2Hex_of_not_int (s : Bytes) (h : Atoi s = none) :
    Coerce2Hex s =
      if has0x s then
        (if s.length % 2 = 0 then some s else some (ascii "0x0" ++ s.drop 2))
      else if s.length > 32 then some (ascii "0x" ++ s)
      else some (ascii "0x" ++ hexEncode (List.replicate (32 - s.length) 0 ++ s)) := by
  unfold Coerce2Hex has0x
  rw [h]

theorem Coerce2Hex_of_int (s : Bytes) (i : Int) (h : Atoi s = some i) :
    Coerce2Hex s =
      (NumberToBytes (toInt32 i) (Int.tdiv i 256 + 1)).map
        (fun b => ascii "0x" ++ hexEncode b) := by
  unfold Coerce2Hex
  rw [h]

/-! ## `NumberToBytes` and `Coerce2Hex`: the claims -/

/-- C6: for a fixed-width integer `num` and `0 ≤ N`, `NumberToBytes(num, N)`
    returns the last `N` bytes of the big-endian encoding of `num` when that
    encoding is longer than `N` and the whole encoding otherwise; the result has
    `min(N, L)` bytes, `L` the width of `num`.  The encoding has `L` bytes, each
    below 256, and reads back as the value of `num` modulo `256 ^ L`. -/
theorem NumberToBytes_keeps_last_N (num : Num) (N : Int) (hN : 0 ≤ N) :
    (binaryWrite num).length = num.kind.size ∧
    (∀ b ∈ binaryWrite num, b < 256) ∧
    (bigEndianValue (binaryWrite num) : Int) = num.val % (256 ^ num.kind.size : Int) ∧
    NumberToBytes num N =
      some (if (num.kind.size : Int) > N then lastN N.toNat (binaryWrite num)
            else binaryWrite num) ∧
    ∀ r, NumberToBytes num N = some r → r.length = min N.toNat num.kind.size := by
  have hpos : (0 : Int) < 256 ^ num.kind.size := by positivity
  have hmod := Int.emod_nonneg num.val (ne_of_gt hpos)
  have hlt := Int.emod_lt_of_pos num.val hpos
  refine ⟨binaryWrite_length num, putBigEndian_lt _ _, ?_, ?_, ?_⟩
  · unfold binaryWrite
    rw [bigEndianValue_putBigEndian, Nat.mod_eq_of_lt, Int.toNat_of_nonneg hmod]
    have h2 : ((num.val % (256 ^ num.kind.size : Int)).toNat : Int) <
        ((256 ^ num.kind.size : Nat) : Int) := by
      rw [Int.toNat_of_nonneg hmod]
      push_cast
      exact hlt
    exact_mod_cast h2
  · rw [NumberToBytes_eq_lastN num N hN]
    split
    · rfl
    · rw [lastN_of_length_le]
      rw [binaryWrite_length]
      omega
  · intro r hr
    rw [NumberToBytes_eq_lastN num N hN] at hr
    injection hr with hr
    rw [← hr, lastN_length, binaryWrite_length]

/-- C6, at a concrete input: the last two bytes of the 32-bit encoding of
    `0x01020304`. -/
theorem NumberToBytes_keeps_last_N_witness :
    (0 : Int) ≤ 2 ∧ NumberToBytes ⟨.int32, 16909060⟩ 2 = some [3, 4] := by
  refine ⟨by decide, ?_⟩
  have h := (NumberToBytes_keeps_last_N ⟨.int32, 16909060⟩ 2 (by decide)).2.2.2.1
  rw [h]
  decide

/-- C5 fails on the code, against the function's own comment ("returns
    properly formatted 32byte hex value"): a decimal integer, a `0x`-prefixed
    string, a long plain string and the negative integers above `-512` each come
    back in another shape than `0x` and 64 hex digits. -/
theorem Coerce2Hex_not_hex32 :
    (Coerce2Hex (ascii "1") = some (ascii "0x01") ∧ isHex32 (ascii "0x01") = false) ∧
    (Coerce2Hex (ascii "0xab") = some (ascii "0xab") ∧ isHex32 (ascii "0xab") = false) ∧
    (Coerce2Hex (ascii "0123456789abcdef0123456789abcdef0")
        = some (ascii "0x0123456789abcdef0123456789abcdef0") ∧
      isHex32 (ascii "0x0123456789abcdef0123456789abcdef0") = false) ∧
    (Coerce2Hex (ascii "-1") = some (ascii "0xff") ∧ isHex32 (ascii "0xff") = false) ∧
    (Coerce2Hex (ascii "-511") = some (ascii "0x") ∧ isHex32 (ascii "0x") = false) := by
  decide

/-- What `Coerce2Hex(s)` returns, by the branch taken.
    * `s` is no decimal integer, does not start with `0x` and has at most 32
      bytes: `0x` and the 64 hex digits of `s` left-padded with zero bytes to
      32 bytes;
    * `s` starts with `0x`: `s` itself when its length is even, else `s` with a
      `0` put in after the `0x`;
    * `s` is no decimal integer, does not start with `0x` and has more than 32
      bytes: `0x` and then `s`;
    * `s` is the decimal integer `i ≥ 0`: `0x` and the hex digits of the last
      `min(4, i/256 + 1)` bytes of the 32-bit big-endian encoding of `i`. -/
theorem Coerce2Hex_by_branch (s : Bytes) :
    (Atoi s = none → ¬ has0x s → s.length ≤ 32 →
      Coerce2Hex s = some (ascii "0x" ++ hexEncode (List.replicate (32 - s.length) 0 ++ s)) ∧
      isHex32 (ascii "0x" ++ hexEncode (List.replicate (32 - s.length) 0 ++ s)) = true) ∧
    (has0x s →
      Coerce2Hex s = some (if s.length % 2 = 0 then s else ascii "0x0" ++ s.drop 2)) ∧
    (Atoi s = none → ¬ has0x s → s.length > 32 → Coerce2Hex s = some (ascii "0x" ++ s)) ∧
    (∀ i : Int, Atoi s = some i → 0 ≤ i →
      Coerce2Hex s =
        some (ascii "0x" ++ hexEncode (lastN (i / 256 + 1).toNat (binaryWrite (toInt32 i)))) ∧
      (hexEncode (lastN (i / 256 + 1).toNat (binaryWrite (toInt32 i)))).length
        = 2 * min (i / 256 + 1).toNat 4) := by
  refine ⟨?_, ?_, ?_, ?_⟩
  · intro hint hpre hlen
    rw [Coerce2Hex_of_not_int s hint, if_neg hpre, if_neg (by omega)]
    refine ⟨rfl, isHex32_0x_hexEncode _ ?_⟩
    rw [List.length_append, List.length_replicate]
    omega
  · intro hpre
    rw [Coerce2Hex_of_not_int s (Atoi_of_has0x s hpre), if_pos hpre]
    split <;> rfl
  · intro hint hpre hlen
    rw [Coerce2Hex_of_not_int s hint, if_neg hpre, if_pos hlen]
  · intro i hint hi
    have hN : 0 ≤ i / 256 + 1 := by omega
    rw [Coerce2Hex_of_int s i hint, tdiv_256_of_nonneg i hi,
      NumberToBytes_eq_lastN _ _ hN]
    refine ⟨rfl, ?_⟩
    rw [hexEncode_length, lastN_length, binaryWrite_length]
    rfl

/-- The branches of `Coerce2Hex` at concrete inputs, one for each. -/
theorem Coerce2Hex_by_branch_witness :
    (Coerce2Hex (ascii "key") = some (ascii
      "0x00000000000000000000000000000000000000000000000000000000006b6579")) ∧
    (Coerce2Hex (ascii "0xabc") = some (ascii "0x0abc")) ∧
    (Coerce2Hex (ascii "0123456789abcdef0123456789abcdef0")
      = some (ascii "0x0123456789abcdef0123456789abcdef0")) ∧
    (Coerce2Hex (ascii "300") = some (ascii "0x012c")) := by
  refine ⟨?_, ?_, ?_, ?_⟩
  · rw [((Coerce2Hex_by_branch (ascii "key")).1 (by decide) (by decide) (by decide)).1]
    decide
  · rw [(Coerce2Hex_by_branch (ascii "0xabc")).2.1 (by decide)]
    decide
  · rw [(Coerce2Hex_by_branch (ascii "0123456789abcdef0123456789abcdef0")).2.2.1
      (by decide) (by decide) (by decide)]
    decide
  · rw [((Coerce2Hex_by_branch (ascii "300")).2.2.2 300 (by decide) (by decide)).1]
    decide

/-- C8 fails on the code: `Coerce2Hex("-512")` panics.  `Atoi` gives `-512`, the
    byte count `-512/256 + 1` is `-1`, and `NumberToBytes` slices the 4-byte
    buffer from index `4 - (-1) = 5`.  The same happens for every decimal
    integer from `-512` downwards, and for no other input. -/
theorem Coerce2Hex_panics_on_negative :
    Atoi (ascii "-512") = some (-512) ∧
    Int.tdiv (-512) 256 + 1 = -1 ∧
    NumberToBytes (toInt32 (-512)) (-1) = none ∧
    Coerce2Hex (ascii "-512") = none ∧
    ∀ s : Bytes, Coerce2Hex s = none ↔ ∃ i : Int, Atoi s = some i ∧ i ≤ -512 := by
  refine ⟨by decide, by decide, by decide, by decide, ?_⟩
  intro s
  constructor
  · intro h
    cases hA : Atoi s with
    | none =>
      rw [Coerce2Hex_of_not_int s hA] at h
      split at h
      · split at h <;> cases h
      · split at h <;> cases h
    | some i =>
      refine ⟨i, rfl, ?_⟩
      rw [Coerce2Hex_of_int s i hA] at h
      by_contra hc
      have hN : 0 ≤ Int.tdiv i 256 + 1 := by
        have := (not_congr (count_neg_iff i)).2 hc
        omega
      rw [NumberToBytes_eq_lastN _ _ hN] at h
      cases h
  · rintro ⟨i, hA, hi⟩
    rw [Coerce2Hex_of_int s i hA, NumberToBytes_neg _ _ ((count_neg_iff i).2 hi)]
    rfl

/-! ## Lemmas on the key buffer -/

theorem copyInto_length (dst src : Bytes) : (copyInto dst src).length = dst.length := by
  simp only [copyInto, List.length_append, List.length_take, List.length_drop]
  omega

theorem copyFirst32_length (buf src : Bytes) :
    (copyFirst32 buf src).length = buf.length := by
  simp only [copyFirst32, List.length_append, copyInto_length, List.length_take,
    List.length_drop]
  omega

theorem copyFirst32_drop (buf src : Bytes) (h : 32 ≤ buf.length) :
    (copyFirst32 buf src).drop 32 = buf.drop 32 := by
  unfold copyFirst32
  rw [List.drop_append_of_le_length]
  · rw [List.drop_eq_nil_of_le, List.nil_append]
    rw [copyInto_length, List.length_take]
    omega
  · rw [copyInto_length, List.length_take]
    omega

theorem copyFirst32_take (buf src : Bytes) (h : 32 ≤ buf.length) (hs : src.length = 32) :
    (copyFirst32 buf src).take 32 = src := by
  unfold copyFirst32
  rw [List.take_append_of_le_length]
  · unfold copyInto
    rw [List.length_take, Nat.min_eq_left h, hs, List.drop_eq_nil_of_le,
      List.append_nil, List.take_take, Nat.min_self, ← hs, List.take_length]
    rw [List.length_take]
    omega
  · rw [copyInto_length, List.length_take]
    omega

theorem zero64_length : zero64.length = 64 := rfl

theorem randomKeyBuffer_length (rnd : Bytes) : (randomKeyBuffer rnd).length = 64 := by
  rw [randomKeyBuffer, copyFirst32_length, zero64_length]

theorem secretKeyBuffer_length (lib : KeyLib) (secret : Bytes) :
    (secretKeyBuffer lib secret).length = 64 := by
  simp only [secretKeyBuffer]
  rw [copyFirst32_length, zero64_length]

/-- Every account built from a 64-byte buffer satisfies the invariant. -/
theorem accountOfBuffer_consistent (lib : KeyLib) (h : lib.Lawful) (buf : Bytes)
    (hb : buf.length = 64) : Consistent lib (accountOfBuffer lib buf) := by
  constructor
  · show some (lib.ed25519PubKey (lib.MakePublicKey buf).2)
      = some (PubKey.ed25519 (lib.MakePublicKey buf).1)
    rw [h.pubKey_eq _ (h.keeps_length buf hb),
      h.reads_seed _ buf (h.keeps_length buf hb) hb (h.keeps_seed buf hb)]
  · rfl

theorem toyLib_lawful : toyLib.Lawful where
  pubKey_eq := by
    intro k _
    rfl
  reads_seed := by
    intro b c _ _ hbc
    show (b.take 32).reverse = (c.take 32).reverse
    rw [hbc]
  keeps_seed := by
    intro b hb
    show (b.take 32 ++ (b.take 32).reverse).take 32 = b.take 32
    rw [List.take_append_of_le_length, List.take_take, Nat.min_self]
    rw [List.length_take]
    omega
  keeps_length := by
    intro b hb
    show (b.take 32 ++ (b.take 32).reverse).length = 64
    rw [List.length_append, List.length_reverse, List.length_take]
    omega
  generate_length := by
    intro k i
    show (((k ++ List.replicate 32 0).take 32).map _ ++ List.replicate 32 0).length = 64
    simp only [List.length_append, List.length_map, List.length_take, List.length_replicate]
    omega

/-- The random source does reach `GenPrivAccount`: two sources give two
    accounts. -/
theorem GenPrivAccount_reads_entropy :
    (GenPrivAccount toyLib countingEntropy).1 ≠ (GenPrivAccount toyLib constEntropy).1 := by
  decide

theorem countingEnv_deterministic : countingEnv.Deterministic where
  digest := by
    intro x s t
    rfl
  pubKey := by
    intro b s t
    rfl
  address := by
    intro p s t
    rfl

/-- With a library whose calls leave the process state alone, the function run
    in the process state returns the account of `GenPrivAccountFromSecret` and
    the state it was given. -/
theorem GenPrivAccountFromSecretIn_toEnv (lib : KeyLib) (secret : Bytes) (w : Entropy) :
    GenPrivAccountFromSecretIn (lib.toEnv Entropy) secret w
      = GenPrivAccountFromSecret lib secret w := rfl

/-- The assumption on the imported calls is needed: with a digest that reads the
    process state, the same secret gives two accounts. -/
theorem GenPrivAccountFromSecretIn_leaky :
    (GenPrivAccountFromSecretIn leakyEnv (ascii "abc") 0).1
      ≠ (GenPrivAccountFromSecretIn leakyEnv (ascii "abc") 5).1 := by
  decide

/-! ## `priv_account.go`: the claims -/

/-- C1: every account returned by `GenPrivAccount`, `GenPrivAccountFromSecret`,
    `GenPrivAccountFromPrivKeyBytes` or `PrivAccount.Generate` has as `PubKey`
    the public key of its `PrivKey` (`PrivKey.PubKey()`) and as `Address` the
    address of that `PubKey` (`PubKey.Address()`), for every key library that
    is `Lawful`: `PrivKey.PubKey()` runs `MakePublicKey`, which reads the first
    half of the 64-byte buffer and leaves it in place.  The last two functions
    return an account whenever they are given a 64-byte key, respectively an
    account holding an ed25519 key. -/
theorem generated_account_consistent (lib : KeyLib) (h : lib.Lawful) :
    (∀ w : Entropy, Consistent lib (GenPrivAccount lib w).1) ∧
    (∀ (secret : Bytes) (w : Entropy),
      Consistent lib (GenPrivAccountFromSecret lib secret w).1) ∧
    (∀ (k : Bytes) (w : Entropy) (acc : PrivAccount),
      (GenPrivAccountFromPrivKeyBytes lib k w).1 = some acc → Consistent lib acc) ∧
    (∀ (pA : PrivAccount) (index : Int) (w : Entropy) (acc : PrivAccount),
      (PrivAccount.Generate lib pA index w).1 = some acc → Consistent lib acc) ∧
    (∀ (k : Bytes) (w : Entropy), k.length = 64 →
      ∃ acc, (GenPrivAccountFromPrivKeyBytes lib k w).1 = some acc) ∧
    (∀ (pA : PrivAccount) (index : Int) (w : Entropy) (k : Bytes),
      pA.PrivKey = .ed25519 k → ∃ acc, (PrivAccount.Generate lib pA index w).1 = some acc) := by
  refine ⟨?_, ?_, ?_, ?_, ?_, ?_⟩
  · intro w
    exact accountOfBuffer_consistent lib h _ (randomKeyBuffer_length _)
  · intro secret w
    exact accountOfBuffer_consistent lib h _ (secretKeyBuffer_length lib secret)
  · intro k w acc hacc
    unfold GenPrivAccountFromPrivKeyBytes at hacc
    split at hacc
    · cases hacc
    · rename_i hk
      injection hacc with hacc
      rw [← hacc]
      exact accountOfBuffer_consistent lib h k (not_not.1 hk)
  · intro pA index w acc hacc
    unfold PrivAccount.Generate at hacc
    split at hacc
    · simp only [] at hacc
      split at hacc
      · rename_i a ha
        injection hacc with hacc
        rw [← hacc]
        exact ⟨rfl, ha⟩
      · cases hacc
    · cases hacc
  · intro k w hk
    refine ⟨accountOfBuffer lib k, ?_⟩
    unfold GenPrivAccountFromPrivKeyBytes
    rw [if_neg (not_not.2 hk)]
  · intro pA index w k hk
    unfold PrivAccount.Generate
    rw [hk]
    simp only [h.pubKey_eq _ (h.generate_length k index), PubKey.Address]
    exact ⟨_, rfl⟩

/-- C1 at a concrete library and concrete inputs. -/
theorem generated_account_consistent_witness :
    toyLib.Lawful ∧
    Consistent toyLib (GenPrivAccount toyLib countingEntropy).1 ∧
    Consistent toyLib (GenPrivAccountFromSecret toyLib (ascii "secret") countingEntropy).1 ∧
    (GenPrivAccountFromSecret toyLib [250] countingEntropy).1.PubKey
      = .ed25519 (List.replicate 31 1 ++ [251]) :=
  ⟨toyLib_lawful,
   (generated_account_consistent toyLib toyLib_lawful).1 countingEntropy,
   (generated_account_consistent toyLib toyLib_lawful).2.1 (ascii "secret") countingEntropy,
   by decide⟩

/-- C3: `GenPrivAccountFromSecret` is deterministic.  When the value of each
    imported call (`wire.BinarySha256`, `ed25519.MakePublicKey`, `Address()`)
    is the same in every process state, two calls with the same secret, made in
    any two process states, return the same account: the same `Address`, the
    same `PubKey` and the same `PrivKey`. -/
theorem GenPrivAccountFromSecretIn_deterministic {σ : Type} (env : KeyEnv σ)
    (h : env.Deterministic) (secret : Bytes) (s t : σ) :
    (GenPrivAccountFromSecretIn env secret s).1 = (GenPrivAccountFromSecretIn env secret t).1 ∧
    (GenPrivAccountFromSecretIn env secret s).1.Address
      = (GenPrivAccountFromSecretIn env secret t).1.Address ∧
    (GenPrivAccountFromSecretIn env secret s).1.PubKey
      = (GenPrivAccountFromSecretIn env secret t).1.PubKey ∧
    (GenPrivAccountFromSecretIn env secret s).1.PrivKey
      = (GenPrivAccountFromSecretIn env secret t).1.PrivKey := by
  have e : (GenPrivAccountFromSecretIn env secret s).1
      = (GenPrivAccountFromSecretIn env secret t).1 := by
    simp only [GenPrivAccountFromSecretIn]
    rw [h.digest secret s t,
      h.pubKey _ (env.BinarySha256 secret s).2 (env.BinarySha256 secret t).2,
      h.address _ (env.MakePublicKey _ (env.BinarySha256 secret s).2).2
        (env.MakePublicKey _ (env.BinarySha256 secret t).2).2]
  exact ⟨e, by rw [e], by rw [e], by rw [e]⟩

/-- C3 at a concrete environment whose calls do change the process state: the
    account for the secret `abc` is the same from state 0 and from state 5. -/
theorem GenPrivAccountFromSecretIn_deterministic_witness :
    countingEnv.Deterministic ∧
    (GenPrivAccountFromSecretIn countingEnv (ascii "abc") 0).2 = 3 ∧
    (GenPrivAccountFromSecretIn countingEnv (ascii "abc") 5).2 = 8 ∧
    (GenPrivAccountFromSecretIn countingEnv (ascii "abc") 0).1
      = (GenPrivAccountFromSecretIn countingEnv (ascii "abc") 5).1 :=
  ⟨countingEnv_deterministic, by decide, by decide,
   (GenPrivAccountFromSecretIn_deterministic countingEnv countingEnv_deterministic
      (ascii "abc") 0 5).1⟩

/-- C4: `pA.Sign(chainID, o)` is `pA.PrivKey.Sign(SignBytes(chainID, o))`.  For
    an ed25519 key the signing primitive is called with the account's own key
    and with `SignBytes(chainID, o)` as the message; the primitive that returns
    its two arguments shows them. -/
theorem PrivAccount_Sign_eq {Signable Signature : Type} (sl : SignLib Signable Signature)
    (pA : PrivAccount) (chainID : Bytes) (o : Signable) :
    PrivAccount.Sign sl pA chainID o = PrivKey.Sign sl pA.PrivKey (sl.SignBytes chainID o) ∧
    (∀ k : Bytes, pA.PrivKey = .ed25519 k →
      PrivAccount.Sign sl pA chainID o = some (sl.ed25519Sign k (sl.SignBytes chainID o))) ∧
    (∀ k : Bytes, pA.PrivKey = .ed25519 k →
      PrivAccount.Sign (SignLib.mk sl.SignBytes (fun key msg => (key, msg))) pA chainID o
        = some (k, sl.SignBytes chainID o)) := by
  refine ⟨rfl, ?_, ?_⟩
  · intro k hk
    unfold PrivAccount.Sign
    rw [hk]
    rfl
  · intro k hk
    unfold PrivAccount.Sign
    rw [hk]
    rfl

/-- C4 at a concrete account, chain and object. -/
theorem PrivAccount_Sign_eq_witness :
    PrivAccount.Sign toySign ⟨[9], .ed25519 [5], .ed25519 [1, 2]⟩ (ascii "ab") (ascii "c")
      = some ([1, 2], [2, 97, 98, 99]) := by
  rw [(PrivAccount_Sign_eq toySign ⟨[9], .ed25519 [5], .ed25519 [1, 2]⟩ (ascii "ab")
    (ascii "c")).2.1 [1, 2] rfl]
  decide

/-- C7: in `GenPrivAccountFromSecret(secret)` the key buffer handed to
    `ed25519.MakePublicKey` has 64 bytes, its first 32 bytes are the digest
    `wire.BinarySha256(secret)`, computed once, its last 32 bytes are zero, and
    the account's `PubKey` is the public key `MakePublicKey` returns for that
    buffer (its `PrivKey` is the buffer after the call, its `Address` the
    address of that public key). -/
theorem GenPrivAccountFromSecret_key_buffer (lib : KeyLib) (secret : Bytes) (w : Entropy)
    (h32 : (lib.BinarySha256 secret).length = 32) :
    (secretKeyBuffer lib secret).length = 64 ∧
    (secretKeyBuffer lib secret).take 32 = lib.BinarySha256 secret ∧
    (secretKeyBuffer lib secret).drop 32 = List.replicate 32 0 ∧
    (GenPrivAccountFromSecret lib secret w).1.PubKey
      = .ed25519 (lib.MakePublicKey (secretKeyBuffer lib secret)).1 ∧
    (GenPrivAccountFromSecret lib secret w).1.PrivKey
      = .ed25519 (lib.MakePublicKey (secretKeyBuffer lib secret)).2 ∧
    (GenPrivAccountFromSecret lib secret w).1.Address
      = lib.ed25519Address (lib.MakePublicKey (secretKeyBuffer lib secret)).1 := by
  refine ⟨secretKeyBuffer_length lib secret, ?_, ?_, rfl, rfl, rfl⟩
  · simp only [secretKeyBuffer]
    exact copyFirst32_take _ _ (by decide) h32
  · simp only [secretKeyBuffer]
    rw [copyFirst32_drop _ _ (by decide)]
    rfl

/-- C7 at a concrete library and secret. -/
theorem GenPrivAccountFromSecret_key_buffer_witness :
    (toyLib.BinarySha256 (ascii "abc")).length = 32 ∧
    (secretKeyBuffer toyLib (ascii "abc")).take 32 = 98 :: 99 :: 100 :: List.replicate 29 1 ∧
    (secretKeyBuffer toyLib (ascii "abc")).drop 32 = List.replicate 32 0 := by
  have h := GenPrivAccountFromSecret_key_buffer toyLib (ascii "abc") countingEntropy (by decide)
  exact ⟨by decide, by rw [h.2.1]; decide, h.2.2.1⟩

end ErisKeys
